import Mathlib

/-!
Shallow embedding of `kernel/freertos/scheduler.c` (openwsn-fw, thomas2 fork).

The scheduler keeps a fixed pool of task slots (`scheduler_vars.taskBuf`,
`TASK_LIST_DEPTH` entries) threaded into a singly linked list
(`scheduler_vars.task_list`) sorted by ascending priority.  Three FreeRTOS
worker tasks (rx, sendDone, app) each drain one priority band; `push` selects
which binary semaphore to give from the new task's priority.

We model the linked list as a Lean `List` of tasks (the chain of occupied
slots in link order), the pool separately as a list of slots (for the slot
scan and slot-release claims), and the whole scheduler as a small step
machine for the temporal and counter claims.  A C null-pointer dereference
is modeled as `Except.error ()`; the fatal handler `scheduler_handleErrror`
(which resets the board and never resumes) is modeled the same way at the
points where the C code calls it.
-/

namespace OpenWSN

/-- A queued task: the callback (identified by a number; in C a non-NULL
function pointer `task_cbt`) and its priority (`task_prio_t`). -/
structure Task where
  cb : Nat
  prio : Nat
deriving DecidableEq, Repr

/-- Constant `SCHEDULER_STACK_PRIO_BOUNDARY` from scheduler.c. -/
def SCHEDULER_STACK_PRIO_BOUNDARY : Nat := 4

/-- Constant `SCHEDULER_SENDDONETIMER_PRIO_BOUNDARY` from scheduler.c. -/
def SCHEDULER_SENDDONETIMER_PRIO_BOUNDARY : Nat := 8

/-- Band membership test `prio >= minprio && prio < maxprio` used by
`scheduler_find_next_task_and_execute`. -/
def bandP (minprio maxprio p : Nat) : Prop :=
  minprio ≤ p ∧ p < maxprio

instance (a b p : Nat) : Decidable (bandP a b p) :=
  inferInstanceAs (Decidable (a ≤ p ∧ p < b))

/-- The queue-insertion walk of `scheduler_push_task_internal`: advance while
`(*taskListWalker)->prio < taskContainer->prio`, then splice the new task in
before the stopping point.  Note the strict `<`: the walk stops at the first
node whose priority is greater than *or equal to* the new one. -/
def insertTask (t : Task) : List Task → List Task
  | [] => [t]
  | h :: rest =>
    if h.prio < t.prio then h :: insertTask t rest
    else t :: h :: rest

/-- A sequence of `scheduler_push_task_internal` list insertions starting
from the empty task list; each pair is (callback, priority). -/
def pushAll (ps : List (Nat × Nat)) : List Task :=
  ps.foldl (fun q cp => insertTask ⟨cp.1, cp.2⟩ q) []

/-- The inner `while` walk of `scheduler_find_next_task_and_execute`, started
on the part of the list after the head.  The C loop condition is
`!(pThisTask->prio >= minprio && pThisTask->prio < maxprio) && pThisTask != NULL`:
the node is dereferenced *before* the NULL test, so running off the end of
the list (no node of the suffix in the band) dereferences NULL — modeled as
`Except.error ()`.  On success it returns the first in-band node together
with the suffix with that node unlinked (`(*prevTask)->next = pThisTask->next`). -/
def scanBand (minprio maxprio : Nat) : List Task → Except Unit (Task × List Task)
  | [] => Except.error ()
  | t :: ts =>
    if bandP minprio maxprio t.prio then Except.ok (t, ts)
    else
      match scanBand minprio maxprio ts with
      | Except.error () => Except.error ()
      | Except.ok (f, rest) => Except.ok (f, t :: rest)

/-- `scheduler_find_next_task_and_execute` acting on the task list.  Returns
the extracted task (`some` iff the C function returns TRUE and executes it)
and the task list after unlinking; `Except.error ()` is the NULL dereference
of the inner walk.  The head is checked first (`scheduler_vars.task_list`
is rewired to `pThisTask->next` when the head matches); with a single-node
list whose head does not match, the C code returns FALSE early. -/
def find_next (minprio maxprio : Nat) (l : List Task) :
    Except Unit (Option Task × List Task) :=
  match l with
  | [] => Except.ok (none, [])
  | h :: rest =>
    if bandP minprio maxprio h.prio then Except.ok (some h, rest)
    else
      match rest with
      | [] => Except.ok (none, h :: rest)
      | _ :: _ =>
        match scanBand minprio maxprio rest with
        | Except.error () => Except.error ()
        | Except.ok (f, rest2) => Except.ok (some f, h :: rest2)

/-! ## Dispatch protocol: semaphore selection in `scheduler_push_task` -/

/-- The three worker contexts and their binary semaphores: `vRxTask`/`xRxSem`,
`vSendDoneTask`/`xSendDoneSem`, `vAppTask`/`xAppSem`. -/
inductive SemId where
  | rx
  | sendDone
  | app
deriving DecidableEq, Repr

/-- Which semaphore `scheduler_push_task` gives for a priority, following the
if/else chain of scheduler.c:
`prio <= SCHEDULER_STACK_PRIO_BOUNDARY` (4) gives `xRxSem`;
`prio > 4 && prio <= SCHEDULER_SENDDONETIMER_PRIO_BOUNDARY` (8) gives
`xSendDoneSem`; `prio > 8 && prio <= SCHEDULER_APP_PRIO_BOUNDARY` gives
`xAppSem`; otherwise `scheduler_handleErrror` (modeled `none`).
`maxP` stands for `TASKPRIO_MAX` = `SCHEDULER_APP_PRIO_BOUNDARY`, defined in
scheduler.h which is outside src/, so it is kept as a parameter. -/
def chooseSem (maxP p : Nat) : Option SemId :=
  if p ≤ SCHEDULER_STACK_PRIO_BOUNDARY then some SemId.rx
  else if SCHEDULER_STACK_PRIO_BOUNDARY < p ∧ p ≤ SCHEDULER_SENDDONETIMER_PRIO_BOUNDARY then
    some SemId.sendDone
  else if SCHEDULER_SENDDONETIMER_PRIO_BOUNDARY < p ∧ p ≤ maxP then some SemId.app
  else none

/-- The extraction band `[minprio, maxprio)` each worker passes to
`scheduler_find_next_task_and_execute`: `vRxTask` uses `(0, 4)`,
`vSendDoneTask` uses `(4, 8)`, `vAppTask` uses `(8, TASKPRIO_MAX)`. -/
def semRange (maxP : Nat) : SemId → Nat × Nat
  | SemId.rx => (0, SCHEDULER_STACK_PRIO_BOUNDARY)
  | SemId.sendDone => (SCHEDULER_STACK_PRIO_BOUNDARY, SCHEDULER_SENDDONETIMER_PRIO_BOUNDARY)
  | SemId.app => (SCHEDULER_SENDDONETIMER_PRIO_BOUNDARY, maxP)

/-! ## Task pool: slot scan of `scheduler_push_task_internal` and slot
release of `scheduler_executeTask` -/

/-- Modelled from the spec: the NONE sentinel `TASKPRIO_NONE` (defined in
scheduler.h, which is outside src/) that `scheduler_executeTask` writes into
a released slot's priority. -/
def TASKPRIO_NONE : Nat := 0

/-- One slot of `scheduler_vars.taskBuf`: a `taskList_item_t` whose `cb` is
NULL (`none`) when the slot is free, plus the `prio` and `next` fields.  The
`next` link is represented as the index of the next slot (`none` = NULL). -/
structure TaskSlot where
  cb : Option Nat
  prio : Nat
  next : Option Nat
deriving DecidableEq, Repr

/-- The slot-scan part of `scheduler_push_task_internal`: walk `taskBuf` from
index 0 while `taskContainer->cb != NULL`, stopping at the first free slot;
walking past the last slot means the pool has overflown and
`scheduler_handleErrror` runs (modeled `Except.error ()`).  On success the
free slot is filled with the callback and priority (the `next` field is then
overwritten by the queue splice, modeled at the list level). -/
def scheduler_push_task_internal_pool (cb p : Nat) (pool : List TaskSlot) :
    Except Unit (List TaskSlot × Nat) :=
  match pool.findIdx? (fun s => s.cb.isNone) with
  | none => Except.error ()
  | some i => Except.ok (pool.set i ⟨some cb, p, none⟩, i)

/-- The slot-release part of `scheduler_executeTask`: after invoking the
callback, the slot at index `i` gets `cb = NULL`, `prio = TASKPRIO_NONE`,
`next = NULL`; no other slot is touched. -/
def scheduler_executeTask_pool (pool : List TaskSlot) (i : Nat) : List TaskSlot :=
  pool.set i ⟨none, TASKPRIO_NONE, none⟩

/-! ## Whole-scheduler step machine

State of `scheduler_vars` (the linked task list), `scheduler_dbg` (the two
counters), and the three binary semaphores (a FreeRTOS binary semaphore
holds at most one pending give, so each is a `Bool`). -/

/-- Scheduler state: the task list in link order, `scheduler_dbg.numTasksCur`,
`scheduler_dbg.numTasksMax`, and the pending flag of each binary semaphore. -/
structure SchedState where
  queue : List Task
  numTasksCur : Nat
  numTasksMax : Nat
  rxPend : Bool
  sendDonePend : Bool
  appPend : Bool
deriving DecidableEq, Repr

/-- The all-clear initial state: globals are zero-initialized and
`scheduler_init` creates the semaphores empty. -/
def initState : SchedState :=
  ⟨[], 0, 0, false, false, false⟩

/-- Read the pending flag of a semaphore. -/
def getPend (s : SemId) (st : SchedState) : Bool :=
  match s with
  | SemId.rx => st.rxPend
  | SemId.sendDone => st.sendDonePend
  | SemId.app => st.appPend

/-- Set the pending flag of a semaphore (the coalescing
`xSemaphoreGiveFromISR` / `xSemaphoreTake` of a binary semaphore). -/
def setPend (s : SemId) (b : Bool) (st : SchedState) : SchedState :=
  match s with
  | SemId.rx => { st with rxPend := b }
  | SemId.sendDone => { st with sendDonePend := b }
  | SemId.app => { st with appPend := b }

/-- `scheduler_push_task`: `scheduler_push_task_internal` (slot check, list
splice, `numTasksCur++` and `numTasksMax` update) followed by the semaphore
give chosen from the priority.  `N` is the pool capacity `TASK_LIST_DEPTH`;
a slot is free iff fewer than `N` tasks are linked (a slot is occupied
exactly while linked).  Pool overflow and an unmapped priority both reach
`scheduler_handleErrror` (board reset), modeled `Except.error ()`. -/
def scheduler_push_task (maxP N cb p : Nat) (st : SchedState) :
    Except Unit SchedState :=
  if N ≤ st.queue.length then Except.error ()
  else
    match chooseSem maxP p with
    | none => Except.error ()
    | some s =>
      Except.ok (setPend s true
        { st with
          queue := insertTask ⟨cb, p⟩ st.queue
          numTasksCur := st.numTasksCur + 1
          numTasksMax :=
            if st.numTasksMax < st.numTasksCur + 1 then st.numTasksCur + 1
            else st.numTasksMax })

/-- One loop iteration of a worker task after its `xSemaphoreTake` returns:
a single call to `scheduler_find_next_task_and_execute` on the band
`[minprio, maxprio)`.  When a task is extracted, `scheduler_executeTask`
runs its callback (returned as `some cb`) and decrements
`scheduler_dbg.numTasksCur`. -/
def workerWake (minprio maxprio : Nat) (st : SchedState) :
    Except Unit (SchedState × Option Nat) :=
  match find_next minprio maxprio st.queue with
  | Except.error () => Except.error ()
  | Except.ok (none, q) => Except.ok ({ st with queue := q }, none)
  | Except.ok (some f, q) =>
    Except.ok ({ st with queue := q, numTasksCur := st.numTasksCur - 1 }, some f.cb)

/-- External events driving the scheduler: a producer calling
`scheduler_push_task`, or a worker being scheduled after a semaphore give. -/
inductive Cmd where
  | push (cb p : Nat)
  | wake (s : SemId)
deriving DecidableEq, Repr

/-- One machine step.  A `wake` of a worker whose semaphore is not pending
leaves the state unchanged (the worker stays blocked in `xSemaphoreTake`);
otherwise the take consumes the pending give and the worker body runs once.
The second component is the callback executed by this step, if any. -/
def stepCmd (maxP N : Nat) (c : Cmd) (st : SchedState) :
    Except Unit (SchedState × Option Nat) :=
  match c with
  | Cmd.push cb p =>
    match scheduler_push_task maxP N cb p st with
    | Except.error () => Except.error ()
    | Except.ok st' => Except.ok (st', none)
  | Cmd.wake s =>
    if getPend s st then
      workerWake (semRange maxP s).1 (semRange maxP s).2 (setPend s false st)
    else Except.ok (st, none)

/-- Run a command sequence from a state.  Returns the final state, the list
of executed callbacks in execution order, and whether the run died (board
reset via `scheduler_handleErrror`, or the NULL dereference): after a fatal
step nothing further executes. -/
def runCmds (maxP N : Nat) : List Cmd → SchedState → SchedState × List Nat × Bool
  | [], st => (st, [], false)
  | c :: cs, st =>
    match stepCmd maxP N c st with
    | Except.error () => (st, [], true)
    | Except.ok (st', none) => runCmds maxP N cs st'
    | Except.ok (st', some cb) =>
      let r := runCmds maxP N cs st'
      (r.1, cb :: r.2.1, r.2.2)

/-- Reachable scheduler states: the initial state, closed under non-fatal
steps. -/
inductive Reach (maxP N : Nat) : SchedState → Prop
  | init : Reach maxP N initState
  | step {st st' : SchedState} {c : Cmd} {out : Option Nat} :
      Reach maxP N st → stepCmd maxP N c st = Except.ok (st', out) →
      Reach maxP N st'

/-- The task list is sorted by non-decreasing priority. -/
def sortedByPrio (l : List Task) : Prop :=
  l.Pairwise (fun a b => a.prio ≤ b.prio)

instance (l : List Task) : Decidable (sortedByPrio l) :=
  inferInstanceAs (Decidable (l.Pairwise _))

/-- Number of queued tasks whose priority lies in the band. -/
def countBand (minp maxp : Nat) (l : List Task) : Nat :=
  (l.filter (fun t => decide (bandP minp maxp t.prio))).length

/-! ## Helper lemmas -/

theorem insertTask_length (t : Task) (l : List Task) :
    (insertTask t l).length = l.length + 1 := by
  induction l with
  | nil => rfl
  | cons h rest ih =>
    simp only [insertTask]
    split
    · simp [ih]
    · simp

theorem insertTask_split (t : Task) (l : List Task) :
    ∃ l1 l2, l = l1 ++ l2 ∧ insertTask t l = l1 ++ t :: l2 ∧
      (∀ x ∈ l1, x.prio < t.prio) ∧
      (∀ y, l2.head? = some y → t.prio ≤ y.prio) := by
  induction l with
  | nil => exact ⟨[], [], rfl, rfl, by simp, by simp⟩
  | cons h rest ih =>
    by_cases hc : h.prio < t.prio
    · obtain ⟨l1, l2, he, hi, hlt, hhd⟩ := ih
      refine ⟨h :: l1, l2, by simp [he], ?_, ?_, hhd⟩
      · simp only [insertTask, if_pos hc, hi, List.cons_append]
      · intro x hx
        rcases List.mem_cons.mp hx with rfl | hx
        · exact hc
        · exact hlt x hx
    · refine ⟨[], h :: rest, rfl, ?_, by simp, ?_⟩
      · simp only [insertTask, if_neg hc, List.nil_append]
      · intro y hy
        simp only [List.head?_cons, Option.some.injEq] at hy
        subst hy
        exact Nat.le_of_not_lt hc

theorem mem_insertTask {x t : Task} {l : List Task} (h : x ∈ insertTask t l) :
    x = t ∨ x ∈ l := by
  obtain ⟨l1, l2, he, hi, -, -⟩ := insertTask_split t l
  subst he
  rw [hi] at h
  simp only [List.mem_append, List.mem_cons] at h ⊢
  tauto

theorem insertTask_sorted {t : Task} {l : List Task} (hs : sortedByPrio l) :
    sortedByPrio (insertTask t l) := by
  induction l with
  | nil => simp [insertTask, sortedByPrio]
  | cons h rest ih =>
    rw [sortedByPrio, List.pairwise_cons] at hs
    obtain ⟨hall, hrest⟩ := hs
    by_cases hc : h.prio < t.prio
    · rw [sortedByPrio]
      simp only [insertTask, if_pos hc]
      rw [List.pairwise_cons]
      constructor
      · intro y hy
        rcases mem_insertTask hy with rfl | hy'
        · exact Nat.le_of_lt hc
        · exact hall y hy'
      · exact ih hrest
    · rw [sortedByPrio]
      simp only [insertTask, if_neg hc]
      rw [List.pairwise_cons]
      refine ⟨?_, List.pairwise_cons.mpr ⟨hall, hrest⟩⟩
      intro y hy
      rcases List.mem_cons.mp hy with rfl | hy'
      · exact Nat.le_of_not_lt hc
      · exact Nat.le_trans (Nat.le_of_not_lt hc) (hall y hy')

theorem sortedByPrio_pushAll (ps : List (Nat × Nat)) : sortedByPrio (pushAll ps) := by
  rw [pushAll]
  generalize hq : ([] : List Task) = q
  have hs : sortedByPrio q := by rw [← hq]; exact List.Pairwise.nil
  clear hq
  induction ps generalizing q with
  | nil => exact hs
  | cons p ps ih => exact ih _ (insertTask_sorted hs)

theorem scanBand_split {minp maxp : Nat} {l rest : List Task} {f : Task}
    (h : scanBand minp maxp l = Except.ok (f, rest)) :
    ∃ l1 l2, l = l1 ++ f :: l2 ∧ rest = l1 ++ l2 ∧
      (∀ x ∈ l1, ¬ bandP minp maxp x.prio) ∧ bandP minp maxp f.prio := by
  induction l generalizing rest with
  | nil => simp [scanBand] at h
  | cons t ts ih =>
    by_cases hb : bandP minp maxp t.prio
    · rw [scanBand, if_pos hb] at h
      simp only [Except.ok.injEq, Prod.mk.injEq] at h
      obtain ⟨rfl, rfl⟩ := h
      exact ⟨[], ts, rfl, rfl, by simp, hb⟩
    · rw [scanBand, if_neg hb] at h
      cases hsc : scanBand minp maxp ts with
      | error u => rw [hsc] at h; cases u; simp at h
      | ok pr =>
        obtain ⟨f', rest'⟩ := pr
        rw [hsc] at h
        simp only [Except.ok.injEq, Prod.mk.injEq] at h
        obtain ⟨rfl, rfl⟩ := h
        obtain ⟨l1, l2, he, hr, hnb, hbf⟩ := ih hsc
        refine ⟨t :: l1, l2, by simp [he], by simp [hr], ?_, hbf⟩
        intro x hx
        rcases List.mem_cons.mp hx with rfl | hx'
        · exact hb
        · exact hnb x hx'

theorem scanBand_success {minp maxp : Nat} {l : List Task}
    (h : ∃ x ∈ l, bandP minp maxp x.prio) :
    ∃ f rest, scanBand minp maxp l = Except.ok (f, rest) := by
  induction l with
  | nil => simp at h
  | cons t ts ih =>
    by_cases hb : bandP minp maxp t.prio
    · exact ⟨t, ts, by rw [scanBand, if_pos hb]⟩
    · obtain ⟨x, hx, hbx⟩ := h
      rcases List.mem_cons.mp hx with rfl | hx'
      · exact absurd hbx hb
      · obtain ⟨f, rest, hsc⟩ := ih ⟨x, hx', hbx⟩
        exact ⟨f, t :: rest, by rw [scanBand, if_neg hb, hsc]⟩

theorem find_next_none {minp maxp : Nat} {l q : List Task}
    (h : find_next minp maxp l = Except.ok (none, q)) : q = l := by
  cases l with
  | nil =>
    simp only [find_next, Except.ok.injEq, Prod.mk.injEq] at h
    exact h.2.symm
  | cons hd rest =>
    by_cases hb : bandP minp maxp hd.prio
    · rw [find_next.eq_def] at h
      simp only [if_pos hb] at h
      simp at h
    · rw [find_next.eq_def] at h
      simp only [if_neg hb] at h
      cases rest with
      | nil =>
        simp only [Except.ok.injEq, Prod.mk.injEq] at h
        exact h.2.symm
      | cons r rs =>
        cases hsc : scanBand minp maxp (r :: rs) with
        | error u => rw [hsc] at h; cases u; simp at h
        | ok pr =>
          obtain ⟨f', rest'⟩ := pr
          rw [hsc] at h
          simp at h

theorem find_next_split {minp maxp : Nat} {l q : List Task} {f : Task}
    (h : find_next minp maxp l = Except.ok (some f, q)) :
    ∃ l1 l2, l = l1 ++ f :: l2 ∧ q = l1 ++ l2 ∧
      (∀ x ∈ l1, ¬ bandP minp maxp x.prio) ∧ bandP minp maxp f.prio := by
  cases l with
  | nil => simp [find_next] at h
  | cons hd rest =>
    by_cases hb : bandP minp maxp hd.prio
    · rw [find_next.eq_def] at h
      simp only [if_pos hb, Except.ok.injEq, Prod.mk.injEq, Option.some.injEq] at h
      obtain ⟨rfl, rfl⟩ := h
      exact ⟨[], rest, rfl, rfl, by simp, hb⟩
    · rw [find_next.eq_def] at h
      simp only [if_neg hb] at h
      cases rest with
      | nil => simp at h
      | cons r rs =>
        cases hsc : scanBand minp maxp (r :: rs) with
        | error u => rw [hsc] at h; cases u; simp at h
        | ok pr =>
          obtain ⟨f', rest2⟩ := pr
          rw [hsc] at h
          simp only [Except.ok.injEq, Prod.mk.injEq, Option.some.injEq] at h
          obtain ⟨rfl, rfl⟩ := h
          obtain ⟨l1, l2, he, hr, hnb, hbf⟩ := scanBand_split hsc
          refine ⟨hd :: l1, l2, by simp [he], by simp [hr], ?_, hbf⟩
          intro x hx
          rcases List.mem_cons.mp hx with rfl | hx'
          · exact hb
          · exact hnb x hx'

theorem find_next_found {minp maxp : Nat} {l : List Task} {x : Task}
    (hx : x ∈ l) (hbx : bandP minp maxp x.prio) :
    ∃ f q, find_next minp maxp l = Except.ok (some f, q) := by
  cases l with
  | nil => simp at hx
  | cons hd rest =>
    by_cases hb : bandP minp maxp hd.prio
    · refine ⟨hd, rest, ?_⟩
      rw [find_next.eq_def]
      simp only [if_pos hb]
    · rcases List.mem_cons.mp hx with rfl | hx'
      · exact absurd hbx hb
      · cases rest with
        | nil => simp at hx'
        | cons r rs =>
          obtain ⟨f, rest2, hsc⟩ := scanBand_success ⟨x, hx', hbx⟩
          refine ⟨f, hd :: rest2, ?_⟩
          rw [find_next.eq_def]
          simp only [if_neg hb, hsc]

theorem sortedByPrio_find_next {minp maxp : Nat} {l q : List Task} {r : Option Task}
    (hs : sortedByPrio l) (h : find_next minp maxp l = Except.ok (r, q)) :
    sortedByPrio q := by
  cases r with
  | none => rw [find_next_none h]; exact hs
  | some f =>
    obtain ⟨l1, l2, he, hq, -, -⟩ := find_next_split h
    subst he
    subst hq
    exact List.Pairwise.sublist
      (List.Sublist.append_left (List.sublist_cons_self f l2) l1) hs

theorem find_next_min {minp maxp : Nat} {l q : List Task} {f : Task}
    (hs : sortedByPrio l) (h : find_next minp maxp l = Except.ok (some f, q)) :
    ∀ t ∈ l, bandP minp maxp t.prio → f.prio ≤ t.prio := by
  obtain ⟨l1, l2, he, hq, hnb, hbf⟩ := find_next_split h
  subst he
  intro t ht hbt
  rcases List.mem_append.mp ht with h1 | h2
  · exact absurd hbt (hnb t h1)
  · rcases List.mem_cons.mp h2 with rfl | h2'
    · exact Nat.le_refl _
    · have hp : List.Pairwise (fun a b : Task => a.prio ≤ b.prio) (f :: l2) :=
        (List.pairwise_append.mp hs).2.1
      exact (List.pairwise_cons.mp hp).1 t h2'

theorem countBand_find_next {minp maxp : Nat} {l q : List Task} {f : Task}
    (h : find_next minp maxp l = Except.ok (some f, q)) :
    countBand minp maxp q + 1 = countBand minp maxp l := by
  obtain ⟨l1, l2, he, hq, -, hbf⟩ := find_next_split h
  subst he
  subst hq
  simp [countBand, List.filter_append, List.filter_cons, hbf]
  omega

theorem find_next_length {minp maxp : Nat} {l q : List Task} {f : Task}
    (h : find_next minp maxp l = Except.ok (some f, q)) :
    q.length + 1 = l.length := by
  obtain ⟨l1, l2, he, hq, -, -⟩ := find_next_split h
  subst he
  subst hq
  simp
  omega

@[simp] theorem setPend_queue (s : SemId) (b : Bool) (st : SchedState) :
    (setPend s b st).queue = st.queue := by
  cases s <;> rfl

@[simp] theorem setPend_cur (s : SemId) (b : Bool) (st : SchedState) :
    (setPend s b st).numTasksCur = st.numTasksCur := by
  cases s <;> rfl

@[simp] theorem setPend_max (s : SemId) (b : Bool) (st : SchedState) :
    (setPend s b st).numTasksMax = st.numTasksMax := by
  cases s <;> rfl

/-! ## Claim theorems -/

/-- Claim C1, counterexample: pushing callback 0 then callback 1, both at
priority 2, makes the second push splice in *before* the first (the insertion
walk stops at the first node of equal priority, not strictly greater), and
extraction in the band `[0,4)` then returns callback 1 first — LIFO, not the
FIFO arrival order the claim states. -/
theorem C1_counterexample :
    pushAll [(0, 2), (1, 2)] = [⟨1, 2⟩, ⟨0, 2⟩] ∧
    find_next 0 4 (pushAll [(0, 2), (1, 2)]) = Except.ok (some ⟨1, 2⟩, [⟨0, 2⟩]) ∧
    (⟨1, 2⟩ : Task) ≠ ⟨0, 2⟩ :=
  ⟨by decide, by rfl, by decide⟩

/-- Claim C1, amended: insertion places the new task immediately before the
first node whose priority is greater than *or equal to* the new task's
priority (or at the end), so two tasks enqueued with equal priority are
extracted in LIFO (reverse arrival) order relative to each other. -/
theorem C1_insert_before_first_ge (t : Task) (l : List Task) :
    ∃ l1 l2, l = l1 ++ l2 ∧ insertTask t l = l1 ++ t :: l2 ∧
      (∀ x ∈ l1, x.prio < t.prio) ∧
      (∀ y, l2.head? = some y → t.prio ≤ y.prio) :=
  insertTask_split t l

/-- Claim C2, counterexample: priority 4 is accepted by `scheduler_push_task`
(it gives `xRxSem`, since the give-side test is `prio <= 4`), but 4 is not in
the rx worker's extraction band `[0,4)` — it lies in the sendDone worker's
band `[4,8)`.  So the raised semaphore is not the one whose worker extracts
the task. -/
theorem C2_counterexample :
    chooseSem 16 4 = some SemId.rx ∧
    ¬ bandP (semRange 16 SemId.rx).1 (semRange 16 SemId.rx).2 4 ∧
    bandP (semRange 16 SemId.sendDone).1 (semRange 16 SemId.sendDone).2 4 :=
  ⟨rfl, by decide, by decide⟩

/-- Claim C2, amended: for accepted priorities other than the boundary
values 4, 8 and `TASKPRIO_MAX`, the priority lies in the signaled worker's
extraction band and in no other; but priority 4 signals rx while lying in
the sendDone band, priority 8 signals sendDone while lying in the app band,
and priority `TASKPRIO_MAX` signals app while lying in no extraction band at
all (such a task is enqueued but no worker's band ever matches it). -/
theorem C2_sem_vs_band (maxP p : Nat) (s : SemId) (hm : 8 < maxP)
    (h : chooseSem maxP p = some s) :
    (p ≠ 4 ∧ p ≠ 8 ∧ p ≠ maxP →
      bandP (semRange maxP s).1 (semRange maxP s).2 p ∧
      ∀ s', s' ≠ s → ¬ bandP (semRange maxP s').1 (semRange maxP s').2 p) ∧
    (p = 4 → s = SemId.rx ∧
      bandP (semRange maxP SemId.sendDone).1 (semRange maxP SemId.sendDone).2 p) ∧
    (p = 8 → s = SemId.sendDone ∧
      bandP (semRange maxP SemId.app).1 (semRange maxP SemId.app).2 p) ∧
    (p = maxP → s = SemId.app ∧
      ∀ s', ¬ bandP (semRange maxP s').1 (semRange maxP s').2 p) := by
  simp only [chooseSem, SCHEDULER_STACK_PRIO_BOUNDARY,
    SCHEDULER_SENDDONETIMER_PRIO_BOUNDARY] at h
  by_cases h4 : p ≤ 4
  · rw [if_pos h4] at h
    injection h with h
    subst h
    refine ⟨?_, ?_, ?_, ?_⟩
    · rintro ⟨hp4, -, -⟩
      constructor
      · simp only [semRange, SCHEDULER_STACK_PRIO_BOUNDARY, bandP]
        omega
      · intro s' hs'
        cases s' <;>
          simp only [semRange, SCHEDULER_STACK_PRIO_BOUNDARY,
            SCHEDULER_SENDDONETIMER_PRIO_BOUNDARY, bandP] <;>
          first
          | exact absurd rfl hs'
          | omega
    · rintro rfl
      exact ⟨rfl, by
        simp only [semRange, SCHEDULER_STACK_PRIO_BOUNDARY,
          SCHEDULER_SENDDONETIMER_PRIO_BOUNDARY, bandP]
        omega⟩
    · rintro rfl
      exact absurd h4 (by decide)
    · rintro rfl
      exact absurd h4 (by omega)
  · rw [if_neg h4] at h
    by_cases h8 : 4 < p ∧ p ≤ 8
    · rw [if_pos h8] at h
      injection h with h
      subst h
      refine ⟨?_, ?_, ?_, ?_⟩
      · rintro ⟨-, hp8, -⟩
        constructor
        · simp only [semRange, SCHEDULER_STACK_PRIO_BOUNDARY,
            SCHEDULER_SENDDONETIMER_PRIO_BOUNDARY, bandP]
          omega
        · intro s' hs'
          cases s' <;>
            simp only [semRange, SCHEDULER_STACK_PRIO_BOUNDARY,
              SCHEDULER_SENDDONETIMER_PRIO_BOUNDARY, bandP] <;>
            first
            | exact absurd rfl hs'
            | omega
      · rintro rfl
        exact absurd (by decide : (4 : Nat) ≤ 4) h4
      · rintro rfl
        exact ⟨rfl, by
          simp only [semRange, SCHEDULER_SENDDONETIMER_PRIO_BOUNDARY, bandP]
          omega⟩
      · rintro rfl
        exact absurd h8.2 (by omega)
    · rw [if_neg h8] at h
      by_cases hA : 8 < p ∧ p ≤ maxP
      · rw [if_pos hA] at h
        injection h with h
        subst h
        refine ⟨?_, ?_, ?_, ?_⟩
        · rintro ⟨-, -, hpm⟩
          constructor
          · simp only [semRange, SCHEDULER_SENDDONETIMER_PRIO_BOUNDARY, bandP]
            omega
          · intro s' hs'
            cases s' <;>
              simp only [semRange, SCHEDULER_STACK_PRIO_BOUNDARY,
                SCHEDULER_SENDDONETIMER_PRIO_BOUNDARY, bandP] <;>
              first
              | exact absurd rfl hs'
              | omega
        · rintro rfl
          exact absurd hA.1 (by decide)
        · rintro rfl
          exact absurd hA.1 (by decide)
        · rintro rfl
          refine ⟨rfl, ?_⟩
          intro s'
          cases s' <;>
            simp only [semRange, SCHEDULER_STACK_PRIO_BOUNDARY,
              SCHEDULER_SENDDONETIMER_PRIO_BOUNDARY, bandP] <;>
            omega
      · rw [if_neg hA] at h
        exact absurd h (by simp)

/-- Claim C2 witness: at priority 3 with `TASKPRIO_MAX = 16`, the signaled
rx worker's extraction band contains 3 and the sendDone band does not. -/
theorem C2_sem_vs_band_witness :
    bandP (semRange 16 SemId.rx).1 (semRange 16 SemId.rx).2 3 ∧
    ¬ bandP (semRange 16 SemId.sendDone).1 (semRange 16 SemId.sendDone).2 3 := by
  have h := C2_sem_vs_band 16 3 SemId.rx (by decide) (by rfl)
  have h1 := h.1 ⟨by decide, by decide, by decide⟩
  exact ⟨h1.1, h1.2 SemId.sendDone (by decide)⟩

/-- Claim C3, code bug: with the task list holding two tasks of priorities 5
and 6 and the extraction band `[0,4)` (neither task, after the head, in the
band), the walk of `scheduler_find_next_task_and_execute` runs off the end
of the list and its loop condition evaluates `pThisTask->prio` with
`pThisTask == NULL` (the condition tests the priority before the NULL test)
— modeled as `Except.error ()`.  The function's own `pThisTask == NULL`
check after the loop shows FALSE-without-dereference was the intent. -/
theorem C3_null_deref :
    ¬ bandP 0 4 5 ∧ ¬ bandP 0 4 6 ∧
    find_next 0 4 [⟨0, 5⟩, ⟨1, 6⟩] = Except.error () :=
  ⟨by decide, by decide, by rfl⟩

/-- Claim C4: a task list sorted by non-decreasing priority stays sorted both
under insertion (`scheduler_push_task_internal`) and under unlinking by
`scheduler_find_next_task_and_execute` (any band, whether or not a task was
extracted). -/
theorem C4_sorted_invariant (t : Task) (minp maxp : Nat) (l : List Task)
    (hs : sortedByPrio l) :
    sortedByPrio (insertTask t l) ∧
    ∀ r q, find_next minp maxp l = Except.ok (r, q) → sortedByPrio q :=
  ⟨insertTask_sorted hs, fun _ _ h => sortedByPrio_find_next hs h⟩

/-- Claim C4 witness. -/
theorem C4_sorted_invariant_witness :
    sortedByPrio (insertTask ⟨0, 2⟩ [⟨1, 1⟩, ⟨2, 3⟩]) ∧
    sortedByPrio [⟨2, 3⟩] := by
  have h := C4_sorted_invariant ⟨0, 2⟩ 0 4 [⟨1, 1⟩, ⟨2, 3⟩] (by decide)
  exact ⟨h.1, h.2 (some ⟨1, 1⟩) [⟨2, 3⟩] (by rfl)⟩

/-- Claim C5: when every slot of the task pool is occupied (`cb != NULL`),
the slot scan of `scheduler_push_task_internal` walks past the last slot and
calls `scheduler_handleErrror` (pool exhausted) instead of dropping the task
or overwriting an occupied slot. -/
theorem C5_pool_exhausted (cb p : Nat) (pool : List TaskSlot)
    (h : ∀ s ∈ pool, s.cb ≠ none) :
    scheduler_push_task_internal_pool cb p pool = Except.error () := by
  rw [scheduler_push_task_internal_pool]
  have hidx : pool.findIdx? (fun s => s.cb.isNone) = none := by
    rw [List.findIdx?_eq_none_iff]
    intro x hx
    cases hcb : x.cb with
    | none => exact absurd hcb (h x hx)
    | some c => simp [hcb]
  rw [hidx]

/-- Claim C5 witness: a full three-slot pool rejects the next push. -/
theorem C5_pool_exhausted_witness :
    scheduler_push_task_internal_pool 7 2
      [⟨some 0, 1, none⟩, ⟨some 1, 2, none⟩, ⟨some 2, 3, none⟩] =
      Except.error () :=
  C5_pool_exhausted 7 2 _ (by decide)

/-- Claim C6: after any sequence of pushes, an extraction in a fixed band
returns a task of that band whose priority is minimal among all queued tasks
of the band, the remaining list is still sorted, and a following extraction
in the same band returns a priority at least as large — so repeated
extraction yields a non-decreasing priority sequence. -/
theorem C6_band_extraction_order (ps : List (Nat × Nat)) (minp maxp : Nat)
    (f : Task) (q : List Task)
    (h : find_next minp maxp (pushAll ps) = Except.ok (some f, q)) :
    bandP minp maxp f.prio ∧
    (∀ t ∈ pushAll ps, bandP minp maxp t.prio → f.prio ≤ t.prio) ∧
    sortedByPrio q ∧
    (∀ g q', find_next minp maxp q = Except.ok (some g, q') → f.prio ≤ g.prio) := by
  have hs := sortedByPrio_pushAll ps
  obtain ⟨l1, l2, he, hq, hnb, hbf⟩ := find_next_split h
  refine ⟨hbf, find_next_min hs h, sortedByPrio_find_next hs h, ?_⟩
  intro g q' hg
  obtain ⟨m1, m2, heq, -, -, hbg⟩ := find_next_split hg
  have hgq : g ∈ q := by
    rw [heq]
    exact List.mem_append.mpr (Or.inr (List.mem_cons_self g m2))
  have hgl : g ∈ pushAll ps := by
    rw [he]
    rw [hq] at hgq
    rcases List.mem_append.mp hgq with h1 | h2
    · exact List.mem_append.mpr (Or.inl h1)
    · exact List.mem_append.mpr (Or.inr (List.mem_cons.mpr (Or.inr h2)))
  exact find_next_min hs h g hgl hbg

/-- Claim C6 witness: pushes (cb 0, prio 2), (cb 1, prio 1), (cb 2, prio 5);
band [0,4) extracts cb 1 (prio 1) first, minimal in band, leaving a sorted
list. -/
theorem C6_band_extraction_order_witness :
    bandP 0 4 (Task.mk 1 1).prio ∧
    (Task.mk 1 1).prio ≤ (Task.mk 0 2).prio ∧
    sortedByPrio [⟨0, 2⟩, ⟨2, 5⟩] := by
  have h := C6_band_extraction_order [(0, 2), (1, 1), (2, 5)] 0 4 ⟨1, 1⟩
    [⟨0, 2⟩, ⟨2, 5⟩] (by rfl)
  refine ⟨h.1, ?_, h.2.2.1⟩
  exact h.2.1 ⟨0, 2⟩ (by decide) (by decide)

/-- Claim C7, counterexample: callbacks 0 (priority 1) and 1 (priority 2)
are both pushed into the rx band `[0,4)` before the rx worker runs; the two
`xSemaphoreGiveFromISR` calls coalesce into one pending give of the binary
semaphore.  The single wake then calls
`scheduler_find_next_task_and_execute` once, executes only callback 0, and
re-blocks (the semaphore is empty again) with callback 1 — still inside the
band — left queued: it needs a second, separate signal to run. -/
theorem C7_counterexample :
    runCmds 16 10 [Cmd.push 0 1, Cmd.push 1 2, Cmd.wake SemId.rx] initState =
      (⟨[⟨1, 2⟩], 1, 2, false, false, false⟩, [0], false) ∧
    bandP 0 4 2 :=
  ⟨by rfl, by decide⟩

/-- Claim C7, amended: one wake-up makes the worker run
`scheduler_find_next_task_and_execute` exactly once, so when at least one
queued task lies in the worker's band the wake executes exactly one of them
(the count of queued band tasks drops by exactly one); the K-th queued band
task needs the K-th wake-up. -/
theorem C7_one_task_per_wake (minprio maxprio : Nat) (st : SchedState) (x : Task)
    (hx : x ∈ st.queue) (hbx : bandP minprio maxprio x.prio) :
    workerWake minprio maxprio st ≠ Except.error () ∧
    ∀ (st' : SchedState) (out : Option Nat),
      workerWake minprio maxprio st = Except.ok (st', out) →
      (∃ c, out = some c) ∧
      countBand minprio maxprio st'.queue + 1 = countBand minprio maxprio st.queue := by
  obtain ⟨f, q, hf⟩ := find_next_found hx hbx
  constructor
  · simp only [workerWake, hf]
    intro hcontra
    simp at hcontra
  · intro st' out hw
    simp only [workerWake, hf] at hw
    simp only [Except.ok.injEq, Prod.mk.injEq] at hw
    obtain ⟨rfl, rfl⟩ := hw
    exact ⟨⟨f.cb, rfl⟩, countBand_find_next hf⟩

/-- Claim C7 witness. -/
theorem C7_one_task_per_wake_witness :
    countBand 0 4 [⟨1, 2⟩] + 1 = countBand 0 4 [⟨0, 1⟩, ⟨1, 2⟩] :=
  (((C7_one_task_per_wake 0 4 ⟨[⟨0, 1⟩, ⟨1, 2⟩], 2, 2, true, false, false⟩ ⟨0, 1⟩
      (by decide) (by decide)).2
    ⟨[⟨1, 2⟩], 1, 2, true, false, false⟩ (some 0)) (by rfl)).2

/-- Claim C8: `scheduler_executeTask` releases exactly the executed task's
slot — callback cleared to NULL, priority reset to `TASKPRIO_NONE`, next
link cleared — and leaves every other pool slot untouched, so a push that
later reuses the slot sees no stale callback or priority. -/
theorem C8_release_clears_slot (pool : List TaskSlot) (i : Nat)
    (h : i < pool.length) :
    (scheduler_executeTask_pool pool i)[i]? = some ⟨none, TASKPRIO_NONE, none⟩ ∧
    ∀ j, j ≠ i → (scheduler_executeTask_pool pool i)[j]? = pool[j]? := by
  constructor
  · rw [scheduler_executeTask_pool]
    exact List.getElem?_set_self h
  · intro j hj
    rw [scheduler_executeTask_pool]
    exact List.getElem?_set_ne (Ne.symm hj)

/-- Claim C8 witness. -/
theorem C8_release_clears_slot_witness :
    (scheduler_executeTask_pool [⟨some 5, 3, none⟩, ⟨some 6, 7, some 0⟩] 0)[0]? =
      some ⟨none, TASKPRIO_NONE, none⟩ ∧
    (scheduler_executeTask_pool [⟨some 5, 3, none⟩, ⟨some 6, 7, some 0⟩] 0)[1]? =
      ([⟨some 5, 3, none⟩, ⟨some 6, 7, some 0⟩] : List TaskSlot)[1]? := by
  have h := C8_release_clears_slot [⟨some 5, 3, none⟩, ⟨some 6, 7, some 0⟩] 0
    (by decide)
  exact ⟨h.1, h.2 1 (by decide)⟩

/-- Claim C9: a push whose priority exceeds the highest band boundary
(`TASKPRIO_MAX`) falls through every branch of the semaphore-selection chain
into `scheduler_handleErrror` (LED blink + board reset): the run dies at that
push, no state survives, and the pushed callback (like everything after it)
never executes. -/
theorem C9_unmapped_priority_fatal (maxP N cb p : Nat) (cmds : List Cmd)
    (st : SchedState) (hm : 8 < maxP) (hp : maxP < p) :
    runCmds maxP N (Cmd.push cb p :: cmds) st = (st, [], true) := by
  have hpush : scheduler_push_task maxP N cb p st = Except.error () := by
    rw [scheduler_push_task]
    split
    · rfl
    · have hcs : chooseSem maxP p = none := by
        rw [chooseSem]
        rw [if_neg (by simp only [SCHEDULER_STACK_PRIO_BOUNDARY]; omega),
          if_neg (by
            simp only [SCHEDULER_STACK_PRIO_BOUNDARY,
              SCHEDULER_SENDDONETIMER_PRIO_BOUNDARY]
            omega),
          if_neg (by simp only [SCHEDULER_SENDDONETIMER_PRIO_BOUNDARY]; omega)]
      rw [hcs]
  have hstep : stepCmd maxP N (Cmd.push cb p) st = Except.error () := by
    simp only [stepCmd, hpush]
  rw [runCmds, hstep]

/-- Claim C9 witness: the spec's Scenario C, `push(cb, priority=100)`. -/
theorem C9_unmapped_priority_fatal_witness :
    runCmds 16 10 [Cmd.push 3 100] initState = (initState, [], true) :=
  C9_unmapped_priority_fatal 16 10 3 100 [] initState (by decide) (by decide)

/-- One non-fatal step preserves the counter invariant and never lowers
`numTasksMax`. -/
theorem stepCmd_preserves {maxP N : Nat} {st st' : SchedState} {c : Cmd}
    {out : Option Nat}
    (h1 : st.numTasksCur = st.queue.length) (h2 : st.numTasksCur ≤ st.numTasksMax)
    (h : stepCmd maxP N c st = Except.ok (st', out)) :
    st'.numTasksCur = st'.queue.length ∧ st'.numTasksCur ≤ st'.numTasksMax ∧
    st.numTasksMax ≤ st'.numTasksMax := by
  cases c with
  | push cb p =>
    simp only [stepCmd] at h
    cases hps : scheduler_push_task maxP N cb p st with
    | error u => rw [hps] at h; cases u; simp at h
    | ok stn =>
      rw [hps] at h
      simp only [Except.ok.injEq, Prod.mk.injEq] at h
      obtain ⟨rfl, rfl⟩ := h
      rw [scheduler_push_task] at hps
      split at hps
      · simp at hps
      · cases hcs : chooseSem maxP p with
        | none => rw [hcs] at hps; simp at hps
        | some s =>
          rw [hcs] at hps
          simp only [Except.ok.injEq] at hps
          subst hps
          refine ⟨?_, ?_, ?_⟩
          · simp [insertTask_length, h1]
          · simp only [setPend_cur, setPend_max]
            split <;> omega
          · simp only [setPend_max]
            split <;> omega
  | wake s =>
    simp only [stepCmd] at h
    by_cases hpend : getPend s st
    · rw [if_pos hpend] at h
      simp only [workerWake, setPend_queue] at h
      cases hf : find_next (semRange maxP s).1 (semRange maxP s).2 st.queue with
      | error u => rw [hf] at h; cases u; simp at h
      | ok pr =>
        obtain ⟨r, q⟩ := pr
        rw [hf] at h
        cases r with
        | none =>
          simp only [Except.ok.injEq, Prod.mk.injEq] at h
          obtain ⟨rfl, rfl⟩ := h
          have hq := find_next_none hf
          subst hq
          exact ⟨by simpa using h1, by simpa using h2, by simp⟩
        | some f =>
          simp only [Except.ok.injEq, Prod.mk.injEq] at h
          obtain ⟨rfl, rfl⟩ := h
          have hlen := find_next_length hf
          refine ⟨?_, ?_, ?_⟩
          · simp only [setPend_cur]
            omega
          · simp only [setPend_cur, setPend_max]
            omega
          · simp
    · rw [if_neg hpend] at h
      simp only [Except.ok.injEq, Prod.mk.injEq] at h
      obtain ⟨rfl, rfl⟩ := h
      exact ⟨h1, h2, Nat.le_refl _⟩

/-- Claim C10: in every reachable scheduler state,
`scheduler_dbg.numTasksCur` equals the number of queued tasks,
`numTasksCur ≤ numTasksMax`, and no non-fatal step ever lowers
`numTasksMax`. -/
theorem C10_dbg_counters (maxP N : Nat) (st : SchedState)
    (h : Reach maxP N st) :
    st.numTasksCur = st.queue.length ∧ st.numTasksCur ≤ st.numTasksMax ∧
    ∀ (c : Cmd) (st' : SchedState) (out : Option Nat),
      stepCmd maxP N c st = Except.ok (st', out) →
      st.numTasksMax ≤ st'.numTasksMax := by
  induction h with
  | init =>
    exact ⟨rfl, Nat.le_refl 0,
      fun c st' out hs => (stepCmd_preserves rfl (Nat.le_refl 0) hs).2.2⟩
  | step hre hs ih =>
    obtain ⟨i1, i2, -⟩ := ih
    obtain ⟨j1, j2, -⟩ := stepCmd_preserves i1 i2 hs
    exact ⟨j1, j2, fun c st2 out2 hs2 => (stepCmd_preserves j1 j2 hs2).2.2⟩

/-- Claim C10 witness: the invariant at the initial state, and `numTasksMax`
not lowered by a concrete first push. -/
theorem C10_dbg_counters_witness :
    (initState.numTasksCur = initState.queue.length ∧
      initState.numTasksCur ≤ initState.numTasksMax) ∧
    initState.numTasksMax ≤
      (SchedState.mk [⟨0, 2⟩] 1 1 true false false).numTasksMax := by
  have h := C10_dbg_counters 16 10 initState Reach.init
  refine ⟨⟨h.1, h.2.1⟩, ?_⟩
  exact h.2.2 (Cmd.push 0 2) ⟨[⟨0, 2⟩], 1, 1, true, false, false⟩ none (by rfl)

end OpenWSN
